import Mathlib

/-!
# VaultAPI-Client: verification of the transit-decryption core

Shallow embedding of the repository's two source files:

* `src/rust/src/lib.rs` — `transit_decrypt`: time-bucketed key derivation
  (SHA-256 over `"{epoch_bucket}.{apikey}"`), base64 decoding, 12-byte nonce
  split, AES-256-GCM authenticated decryption, JSON parsing of the plaintext.
* `src/src/request.rs` — `create_request_materials`, `make_request`,
  `server_connection`: endpoint/parameter selection from the configuration and
  dispatch of the server's `detail` field to the decryptor.

Bytes are `Nat` (kept `< 256` where it matters), byte strings are `List Nat`.
SHA-256 and standard base64 are implemented concretely.  The AES-256-GCM
primitive (the external `ring` crate) and the JSON wire codec (the external
`serde_json` crate) are modelled: the model keeps the exact interface the
source relies on (32-byte key, 12-byte nonce, `ciphertext ++ 16-byte tag`
layout, tamper-evident tag, structured-value round trip) while replacing the
internal cipher by an executable keystream-plus-checksum construction.
-/

/-! ## Byte-level helpers -/

/-- Big-endian byte encoding of a natural number into exactly `k` bytes
(the value is taken modulo `256 ^ k`). -/
def natToBytesBE : Nat → Nat → List Nat
  | 0, _ => []
  | k + 1, n => natToBytesBE k (n / 256) ++ [n % 256]

/-- Big-endian byte decoding. -/
def bytesToNatBE (l : List Nat) : Nat :=
  l.foldl (fun a b => a * 256 + b) 0

/-- Concatenation of a list of byte strings (kept local to avoid name drift). -/
def listFlat : List (List Nat) → List Nat
  | [] => []
  | x :: xs => x ++ listFlat xs

/-! ## UTF-8 bytes of a string

Rust strings are UTF-8; `hash_input.as_bytes()` (line 68 of `lib.rs`) yields
the UTF-8 encoding of the string. -/

/-- UTF-8 encoding of a single scalar value. -/
def utf8Bytes (c : Char) : List Nat :=
  let n := c.toNat
  if n < 128 then [n]
  else if n < 2048 then [192 + n / 64, 128 + n % 64]
  else if n < 65536 then [224 + n / 4096, 128 + n / 64 % 64, 128 + n % 64]
  else [240 + n / 262144, 128 + n / 4096 % 64, 128 + n / 64 % 64, 128 + n % 64]

/-- The UTF-8 bytes of a string (`str::as_bytes`). -/
def strBytes (s : String) : List Nat :=
  listFlat (s.data.map utf8Bytes)

/-! ## SHA-256 (the `ring::digest::SHA256` call at line 68 of `lib.rs`),
implemented concretely from FIPS 180-4. -/

def rotr32 (n x : Nat) : Nat := ((x >>> n) ||| (x <<< (32 - n))) % 2 ^ 32

def shaBigSigma0 (x : Nat) : Nat := rotr32 2 x ^^^ rotr32 13 x ^^^ rotr32 22 x

def shaBigSigma1 (x : Nat) : Nat := rotr32 6 x ^^^ rotr32 11 x ^^^ rotr32 25 x

def shaSmallSigma0 (x : Nat) : Nat := rotr32 7 x ^^^ rotr32 18 x ^^^ (x >>> 3)

def shaSmallSigma1 (x : Nat) : Nat := rotr32 17 x ^^^ rotr32 19 x ^^^ (x >>> 10)

/-- The 64 SHA-256 round constants. -/
def shaK : List Nat :=
  [1116352408, 1899447441, 3049323471, 3921009573, 961987163,
   1508970993, 2453635748, 2870763221, 3624381080, 310598401,
   607225278, 1426881987, 1925078388, 2162078206, 2614888103,
   3248222580, 3835390401, 4022224774, 264347078, 604807628,
   770255983, 1249150122, 1555081692, 1996064986, 2554220882,
   2821834349, 2952996808, 3210313671, 3336571891, 3584528711,
   113926993, 338241895, 666307205, 773529912, 1294757372,
   1396182291, 1695183700, 1986661051, 2177026350, 2456956037,
   2730485921, 2820302411, 3259730800, 3345764771, 3516065817,
   3600352804, 4094571909, 275423344, 430227734, 506948616,
   659060556, 883997877, 958139571, 1322822218, 1537002063,
   1747873779, 1955562222, 2024104815, 2227730452, 2361852424,
   2428436474, 2756734187, 3204031479, 3329325298]

structure Sha8 where
  a : Nat
  b : Nat
  c : Nat
  d : Nat
  e : Nat
  f : Nat
  g : Nat
  h : Nat

def shaRound (s : Sha8) (kw : Nat × Nat) : Sha8 :=
  let ch := (s.e &&& s.f) ^^^ ((s.e ^^^ 4294967295) &&& s.g)
  let maj := (s.a &&& s.b) ^^^ (s.a &&& s.c) ^^^ (s.b &&& s.c)
  let t1 := (s.h + shaBigSigma1 s.e + ch + kw.1 + kw.2) % 2 ^ 32
  let t2 := (shaBigSigma0 s.a + maj) % 2 ^ 32
  ⟨(t1 + t2) % 2 ^ 32, s.a, s.b, s.c, (s.d + t1) % 2 ^ 32, s.e, s.f, s.g⟩

/-- Extend the 16 block words to the 64-entry message schedule. -/
def shaExtend (w16 : List Nat) : List Nat :=
  (List.range 48).foldl
    (fun w _ =>
      let l := w.length
      let x := (shaSmallSigma1 (w.getD (l - 2) 0) + w.getD (l - 7) 0 +
                shaSmallSigma0 (w.getD (l - 15) 0) + w.getD (l - 16) 0) % 2 ^ 32
      w ++ [x]) w16

/-- The 16 big-endian 32-bit words of a 64-byte block. -/
def blockWords (block : List Nat) : List Nat :=
  (List.range 16).map (fun i => bytesToNatBE ((block.drop (4 * i)).take 4))

def shaCompress (s : Sha8) (block : List Nat) : Sha8 :=
  let t := (shaK.zip (shaExtend (blockWords block))).foldl shaRound s
  ⟨(s.a + t.a) % 2 ^ 32, (s.b + t.b) % 2 ^ 32, (s.c + t.c) % 2 ^ 32,
   (s.d + t.d) % 2 ^ 32, (s.e + t.e) % 2 ^ 32, (s.f + t.f) % 2 ^ 32,
   (s.g + t.g) % 2 ^ 32, (s.h + t.h) % 2 ^ 32⟩

/-- Merkle–Damgård padding: `0x80`, zeros to 56 mod 64, 8-byte bit length. -/
def shaPad (msg : List Nat) : List Nat :=
  msg ++ [128] ++ List.replicate ((119 - msg.length % 64) % 64) 0
      ++ natToBytesBE 8 (msg.length * 8)

/-- Split a byte string into 64-byte blocks. -/
def chunks64 (l : List Nat) : List (List Nat) :=
  match l with
  | [] => []
  | x :: rest => (x :: rest).take 64 :: chunks64 (rest.drop 63)
termination_by l.length
decreasing_by simp; omega

def shaInit : Sha8 :=
  ⟨1779033703, 3144134277, 1013904242, 2773480762,
   1359893119, 2600822924, 528734635, 1541459225⟩

/-- SHA-256 digest of a byte string, as 32 bytes. -/
def sha256 (msg : List Nat) : List Nat :=
  let s := (chunks64 (shaPad msg)).foldl shaCompress shaInit
  natToBytesBE 4 s.a ++ natToBytesBE 4 s.b ++ natToBytesBE 4 s.c ++
  natToBytesBE 4 s.d ++ natToBytesBE 4 s.e ++ natToBytesBE 4 s.f ++
  natToBytesBE 4 s.g ++ natToBytesBE 4 s.h

/-! ## Standard base64

Model of the `base64::engine::general_purpose::STANDARD` engine used at
line 72 of `lib.rs`: standard alphabet, canonical `=` padding required on
decode, non-zero trailing bits rejected. -/

def b64Alphabet : List Char :=
  "ABCDEFGHIJKLMNOPQRSTUVWXYZabcdefghijklmnopqrstuvwxyz0123456789+/".data

/-- Position of a character in a list, scanned left to right. -/
def b64Index (c : Char) : List Char → Option Nat
  | [] => none
  | x :: xs => if x = c then some 0 else (b64Index c xs).map (· + 1)

/-- The 6-bit value of a base64 alphabet character. -/
def b64Val (c : Char) : Option Nat := b64Index c b64Alphabet

/-- The base64 alphabet character for a 6-bit value. -/
def b64EncChar (n : Nat) : Char := b64Alphabet.getD n 'A'

/-- base64 encoding of a byte string (standard alphabet, `=` padding). -/
def b64EncodeBytes : List Nat → List Char
  | [] => []
  | [b1] => [b64EncChar (b1 / 4), b64EncChar (b1 % 4 * 16), '=', '=']
  | [b1, b2] => [b64EncChar (b1 / 4), b64EncChar (b1 % 4 * 16 + b2 / 16),
                 b64EncChar (b2 % 16 * 4), '=']
  | b1 :: b2 :: b3 :: rest =>
      b64EncChar (b1 / 4) :: b64EncChar (b1 % 4 * 16 + b2 / 16) ::
      b64EncChar (b2 % 16 * 4 + b3 / 64) :: b64EncChar (b3 % 64) ::
      b64EncodeBytes rest

def base64Encode (l : List Nat) : String := String.mk (b64EncodeBytes l)

/-- Strict base64 decoding: length a multiple of four, canonical padding only
in the final group, zero trailing bits. -/
def b64DecodeChars : List Char → Option (List Nat)
  | [] => some []
  | c1 :: c2 :: c3 :: c4 :: rest =>
    match b64Val c1, b64Val c2 with
    | some v1, some v2 =>
      if c3 = '=' then
        if c4 = '=' ∧ rest = [] ∧ v2 % 16 = 0 then
          some [v1 * 4 + v2 / 16]
        else none
      else
        match b64Val c3 with
        | some v3 =>
          if c4 = '=' then
            if rest = [] ∧ v3 % 4 = 0 then
              some [v1 * 4 + v2 / 16, v2 % 16 * 16 + v3 / 4]
            else none
          else
            match b64Val c4 with
            | some v4 =>
              (b64DecodeChars rest).map
                (fun tl => (v1 * 4 + v2 / 16) :: (v2 % 16 * 16 + v3 / 4) ::
                           (v3 % 4 * 64 + v4) :: tl)
            | none => none
        | none => none
    | _, _ => none
  | _ => none

def base64Decode (s : String) : Option (List Nat) := b64DecodeChars s.data

/-! ## Structured values and their wire codec

`serde_json::Value` and `serde_json::from_slice` (line 105 of `lib.rs`) are
external crates.  Modelled from the spec: "Parse the recovered plaintext
bytes as a structured (JSON-like) value.  Parse failure → MalformedPlaintext."
The model keeps the structured-value shape of `serde_json::Value` (null,
booleans, numbers, strings, arrays, objects; numbers modelled as integers)
together with an executable byte codec: a total serializer and a total
parser that can fail, the parser inverting the serializer. -/

inductive Json where
  | null : Json
  | bool : Bool → Json
  | num : Int → Json
  | str : String → Json
  | arr : List Json → Json
  | obj : List (String × Json) → Json

/-- Unary encoding of a natural number, `1 ^ n ++ [0]`. -/
def unaryEnc (n : Nat) : List Nat := List.replicate n 1 ++ [0]

def parseUnary : List Nat → Option (Nat × List Nat)
  | 0 :: rest => some (0, rest)
  | 1 :: rest =>
    match parseUnary rest with
    | some (n, r) => some (n + 1, r)
    | none => none
  | _ => none

def charsEnc (cs : List Char) : List Nat :=
  listFlat (cs.map (fun c => unaryEnc c.toNat))

def parseChars : Nat → List Nat → Option (List Char × List Nat)
  | 0, bytes => some ([], bytes)
  | n + 1, bytes =>
    match parseUnary bytes with
    | some (v, r) =>
      match parseChars n r with
      | some (cs, r2) => some (Char.ofNat v :: cs, r2)
      | none => none
    | none => none

mutual

def jsonSerialize : Json → List Nat
  | .null => [0]
  | .bool b => [1, if b then 1 else 0]
  | .num i => [2, if i < 0 then 1 else 0] ++ unaryEnc i.natAbs
  | .str s => [3] ++ unaryEnc s.data.length ++ charsEnc s.data
  | .arr xs => [4] ++ unaryEnc xs.length ++ serializeList xs
  | .obj kvs => [5] ++ unaryEnc kvs.length ++ serializeKvs kvs

def serializeList : List Json → List Nat
  | [] => []
  | x :: xs => jsonSerialize x ++ serializeList xs

def serializeKvs : List (String × Json) → List Nat
  | [] => []
  | (k, v) :: rest =>
      unaryEnc k.data.length ++ charsEnc k.data ++ jsonSerialize v ++
      serializeKvs rest

end

mutual

def jparse : Nat → List Nat → Option (Json × List Nat)
  | 0, _ => none
  | _ + 1, 0 :: rest => some (.null, rest)
  | _ + 1, 1 :: b :: rest => some (.bool (b == 1), rest)
  | _ + 1, 2 :: sgn :: rest =>
    match parseUnary rest with
    | some (n, r) => some (.num (if sgn == 1 then -(n : Int) else (n : Int)), r)
    | none => none
  | _ + 1, 3 :: rest =>
    match parseUnary rest with
    | some (n, r) =>
      match parseChars n r with
      | some (cs, r2) => some (.str (String.mk cs), r2)
      | none => none
    | none => none
  | fuel + 1, 4 :: rest =>
    match parseUnary rest with
    | some (n, r) =>
      match jparseList fuel n r with
      | some (xs, r2) => some (.arr xs, r2)
      | none => none
    | none => none
  | fuel + 1, 5 :: rest =>
    match parseUnary rest with
    | some (n, r) =>
      match jparseKvs fuel n r with
      | some (kvs, r2) => some (.obj kvs, r2)
      | none => none
    | none => none
  | _ + 1, _ => none
termination_by fuel bytes => (fuel, 0, 0)

def jparseList : Nat → Nat → List Nat → Option (List Json × List Nat)
  | _, 0, bytes => some ([], bytes)
  | fuel, n + 1, bytes =>
    match jparse fuel bytes with
    | some (v, r) =>
      match jparseList fuel n r with
      | some (xs, r2) => some (v :: xs, r2)
      | none => none
    | none => none
termination_by fuel n bytes => (fuel, 1, n)

def jparseKvs : Nat → Nat → List Nat → Option (List (String × Json) × List Nat)
  | _, 0, bytes => some ([], bytes)
  | fuel, n + 1, bytes =>
    match parseUnary bytes with
    | some (klen, r0) =>
      match parseChars klen r0 with
      | some (cs, r1) =>
        match jparse fuel r1 with
        | some (v, r2) =>
          match jparseKvs fuel n r2 with
          | some (kvs, r3) => some ((String.mk cs, v) :: kvs, r3)
          | none => none
        | none => none
      | none => none
    | none => none
termination_by fuel n bytes => (fuel, 1, n)

end

/-- Model of `serde_json::from_slice`: parse a byte string as one structured
value consuming the whole input. -/
def jsonFromSlice (bytes : List Nat) : Option Json :=
  match jparse (bytes.length + 1) bytes with
  | some (v, []) => some v
  | _ => none

mutual

/-- Nesting depth of a structured value (used as parser fuel bound). -/
def jdepth : Json → Nat
  | .arr xs => jdepthList xs + 1
  | .obj kvs => jdepthKvs kvs + 1
  | _ => 1

def jdepthList : List Json → Nat
  | [] => 0
  | x :: xs => max (jdepth x) (jdepthList xs)

def jdepthKvs : List (String × Json) → Nat
  | [] => 0
  | (_, v) :: rest => max (jdepth v) (jdepthKvs rest)

end

/-! ## The AEAD primitive

`ring::aead::AES_256_GCM` (lines 86–102 of `lib.rs`) is an external crate.
Modelled from the spec: "AEAD: authenticated encryption with associated
data; provides confidentiality and tamper detection in one primitive" and
"decoded bytes are `nonce (12 bytes) || AEAD-ciphertext-with-appended-tag`"
(16-byte tag).  The model keeps the exact interface `transit_decrypt` relies
on — a byte key and byte nonce, sealing as `ciphertext ++ 16-byte tag`,
opening that recomputes and checks the tag and rejects on mismatch — with
the block cipher replaced by a SHA-256-derived keystream and the GHASH tag
by a keyed checksum, both executable and tamper-evident. -/

/-- Pointwise XOR of two byte strings (CTR-style combination). -/
def zipXor (a b : List Nat) : List Nat := List.zipWith (fun x y => x ^^^ y) a b

/-- Keystream of `len` bytes derived from key and nonce. -/
def keystream (key nonce : List Nat) (len : Nat) : List Nat :=
  (listFlat ((List.range (len / 32 + 1)).map
    (fun i => sha256 (key ++ nonce ++ natToBytesBE 8 i)))).take len

/-- 16-byte authentication tag over the ciphertext, masked by a keyed value
(the model of the GCM tag). -/
def tagOf (key nonce ct : List Nat) : List Nat :=
  zipXor (natToBytesBE 16 ct.sum) ((sha256 (key ++ nonce)).take 16)

/-- Authenticated encryption: `ciphertext ++ tag`. -/
def aead_seal (key nonce pt : List Nat) : List Nat :=
  let ct := zipXor pt (keystream key nonce pt.length)
  ct ++ tagOf key nonce ct

/-- Authenticated decryption in place (`LessSafeKey::open_in_place` with
empty associated data): split off the 16-byte tag, check it, decrypt. -/
def aead_open (key nonce data : List Nat) : Option (List Nat) :=
  if data.length < 16 then none
  else
    let ct := data.take (data.length - 16)
    let stored := data.drop (data.length - 16)
    if tagOf key nonce ct = stored then
      some (zipXor ct (keystream key nonce ct.length))
    else none

/-! ## `transit_decrypt` (`src/rust/src/lib.rs`, lines 58–111) -/

/-- Line 13 of `lib.rs`. -/
def TRANSIT_KEY_LENGTH : Nat := 32

/-- Line 14 of `lib.rs`. -/
def TRANSIT_TIME_BUCKET : Nat := 60

/-- The key derivation of lines 64–69: bucket the epoch seconds
(`epoch / bucket`), hash the UTF-8 bytes of `"{epoch}.{apikey}"` with
SHA-256 and truncate the digest to the key length. -/
def derive_key (apikey : String) (epochSecs bucketWidth keyLength : Nat) :
    List Nat :=
  let epoch := epochSecs / bucketWidth
  let hash_input := toString epoch ++ "." ++ apikey
  (sha256 (strBytes hash_input)).take keyLength

/-- Model of `ring::aead::UnboundKey::new(&AES_256_GCM, key)` (line 86): fails exactly
when the key is not 32 bytes (documented behaviour of the external crate). -/
def unboundKeyNew (key : List Nat) : Option (List Nat) :=
  if key.length = 32 then some key else none

/-- Model of `ring::aead::Nonce::try_assume_unique_for_key` (line 92): fails exactly
when the nonce is not 12 bytes (documented behaviour of the external crate). -/
def nonceNew (nonce : List Nat) : Option (List Nat) :=
  if nonce.length = 12 then some nonce else none

/-- Embedding of `transit_decrypt` (lines 58–111).  `now` is the result of
`SystemTime::now().duration_since(UNIX_EPOCH)` in whole seconds; `none`
models a system clock before the UNIX epoch.  Errors carry the exact
message strings of the source. -/
def transit_decrypt (now : Option Nat) (apikey ciphertext : String) :
    Except String Json :=
  match now with
  | none => .error "System time is before the UNIX epoch"
  | some secs =>
    let aes_key := derive_key apikey secs TRANSIT_TIME_BUCKET TRANSIT_KEY_LENGTH
    match base64Decode ciphertext with
    | none => .error "Failed to decode ciphertext"
    | some ciphertext_bytes =>
      if ciphertext_bytes.length < 12 then .error "Ciphertext is too short"
      else
        let nonce_bytes := ciphertext_bytes.take 12
        let encrypted_data := ciphertext_bytes.drop 12
        match unboundKeyNew aes_key with
        | none => .error "Failed to create AES key"
        | some key =>
          match nonceNew nonce_bytes with
          | none => .error "Failed to create nonce"
          | some nonce =>
            match aead_open key nonce encrypted_data with
            | none => .error "Failed to decrypt data"
            | some decrypted_data =>
              match jsonFromSlice decrypted_data with
              | none => .error "Failed to parse decrypted data as JSON"
              | some decrypted_json => .ok decrypted_json

/-- Modelled from the spec: the `decipher` module that `src/src/request.rs`
calls (`decipher::transit_decrypt(apikey, cipher, transit_key_length,
transit_time_bucket)`) is not under `src/`.  Per the spec (§9, §4.1–4.2) it
is the same algorithm as `transit_decrypt` with the key length and time
bucket taken from the configuration instead of the two constants. -/
def decipher_transit_decrypt (now : Option Nat) (apikey cipher : String)
    (transit_key_length transit_time_bucket : Nat) : Except String Json :=
  match now with
  | none => .error "System time is before the UNIX epoch"
  | some secs =>
    let aes_key := derive_key apikey secs transit_time_bucket transit_key_length
    match base64Decode cipher with
    | none => .error "Failed to decode ciphertext"
    | some ciphertext_bytes =>
      if ciphertext_bytes.length < 12 then .error "Ciphertext is too short"
      else
        let nonce_bytes := ciphertext_bytes.take 12
        let encrypted_data := ciphertext_bytes.drop 12
        match unboundKeyNew aes_key with
        | none => .error "Failed to create AES key"
        | some key =>
          match nonceNew nonce_bytes with
          | none => .error "Failed to create nonce"
          | some nonce =>
            match aead_open key nonce encrypted_data with
            | none => .error "Failed to decrypt data"
            | some decrypted_data =>
              match jsonFromSlice decrypted_data with
              | none => .error "Failed to parse decrypted data as JSON"
              | some decrypted_json => .ok decrypted_json

/-! ## `src/src/request.rs` -/

/-- Configuration consumed by `request.rs`.  Modelled from the spec: the
`parser::Config` struct is not under `src/`; its fields are exactly those
read by `request.rs` (spec §6: credential, base server URL, the three
retrieval-mode selectors plus the table selector, key length, bucket
width).  Absent command-line options surface as empty strings, as the
`is_empty` tests in `request.rs` show. -/
structure Config where
  apikey : String
  vault_server : String
  table_name : String
  get_table : String
  get_secret : String
  get_secrets : String
  transit_key_length : Nat
  transit_time_bucket : Nat

/-- Embedding of `auth_headers` (lines 23–29): bearer token plus JSON accept header.
The `HashMap` is modelled as an association list (its keys are distinct). -/
def auth_headers (apikey : String) : List (String × String) :=
  [("Authorization", "Bearer " ++ apikey), ("Accept", "application/json")]

structure RequestMaterials where
  url : String
  params : List (String × String)
  headers : List (String × String)

/-- Outcome of `create_request_materials`: either materials or a process
exit (`exit(1)` in the source), reified so the core stays a function. -/
inductive CrmOutcome where
  | materials : RequestMaterials → CrmOutcome
  | exits : Nat → CrmOutcome

/-- The second `if` chain of `create_request_materials` (lines 53–64):
chooses the endpoint and the mode parameter.  Note the fall-through: when
no mode is selected and `table_name` is non-empty, no branch fires and the
URL keeps its initial empty value. -/
def crm_mode (config : Config) (params0 : List (String × String)) :
    CrmOutcome :=
  if config.get_secrets ≠ "" then
    .materials ⟨config.vault_server ++ "get-secrets",
      params0 ++ [("keys", config.get_secrets)], auth_headers config.apikey⟩
  else if config.get_secret ≠ "" then
    .materials ⟨config.vault_server ++ "get-secret",
      params0 ++ [("key", config.get_secret)], auth_headers config.apikey⟩
  else if config.get_table ≠ "" then
    .materials ⟨config.vault_server ++ "get-table", params0,
      auth_headers config.apikey⟩
  else if config.table_name = "" then
    .exits 1
  else
    .materials ⟨"", params0, auth_headers config.apikey⟩

/-- Embedding of `create_request_materials` (lines 39–70): first the table-selector
chain (lines 44–51), then the mode chain. -/
def create_request_materials (config : Config) : CrmOutcome :=
  if config.table_name ≠ "" then
    crm_mode config [("table_name", config.table_name)]
  else if config.get_table ≠ "" then
    crm_mode config [("table_name", config.get_table)]
  else
    .exits 1

/-- Association-list lookup for JSON objects. -/
def jlookup (kvs : List (String × Json)) (k : String) : Option Json :=
  match kvs with
  | [] => none
  | (k2, v) :: rest => if k2 = k then some v else jlookup rest k

/-- Model of `serde_json::Value::get` with a string index: `Some` only on objects. -/
def jget (j : Json) (k : String) : Option Json :=
  match j with
  | .obj kvs => jlookup kvs k
  | _ => none

inductive MakeRequestOutcome where
  | value : Json → MakeRequestOutcome
  | exits : Nat → MakeRequestOutcome

/-- Embedding of `make_request` (lines 119–167).  The transport result is an input:
`none` models a failed `request.send()`, `some none` a body that fails to
parse as JSON — both print and `exit(1)` in the source — and
`some (some body)` a parsed JSON body, from which the top-level `detail`
field is extracted, `Value::Null` when absent. -/
def make_request (transport : Option (Option Json)) : MakeRequestOutcome :=
  match transport with
  | none => .exits 1
  | some none => .exits 1
  | some (some body) => .value ((jget body "detail").getD Json.null)

/-- Outcome of `server_connection`: a returned `Result` or a process exit. -/
inductive ServerOutcome where
  | returns : Except String Json → ServerOutcome
  | exits : Nat → ServerOutcome

/-- Embedding of `server_connection` (lines 79–108): build the request materials, make
the request, then dispatch on the `detail` value: a string is handed to
`decipher::transit_decrypt` and its result returned; `Null` prints and
exits(1); an object prints and falls through to `exit(1)`; anything else
prints and falls through to `exit(1)`. -/
def server_connection (now : Option Nat) (config : Config)
    (transport : Option (Option Json)) : ServerOutcome :=
  match create_request_materials config with
  | .exits code => .exits code
  | .materials _ =>
    match make_request transport with
    | .exits code => .exits code
    | .value response =>
      match response with
      | .null => .exits 1
      | .str cipher_text =>
        .returns (decipher_transit_decrypt now config.apikey cipher_text
          config.transit_key_length config.transit_time_bucket)
      | .obj _ => .exits 1
      | _ => .exits 1

/-- The key the encrypting side derives for a given time bucket (spec §4.1):
decimal bucket string, separator, credential, hashed and truncated. -/
def keyForBucket (credential : String) (b keyLength : Nat) : List Nat :=
  (sha256 (strBytes (toString b ++ "." ++ credential))).take keyLength

/-- The table selector the code sends: `table_name` takes precedence over
`get_table` (restated from the claim for comparison with the source). -/
def selectedTableName (config : Config) : String :=
  if config.table_name ≠ "" then config.table_name else config.get_table

/-- The endpoint the code picks under the fixed mode priority
`get_secrets` over `get_secret` over `get_table` (restated from the
claim). -/
def priorityUrl (config : Config) : String :=
  if config.get_secrets ≠ "" then config.vault_server ++ "get-secrets"
  else if config.get_secret ≠ "" then config.vault_server ++ "get-secret"
  else config.vault_server ++ "get-table"

/-- The query parameters the code sends under the same priority (restated
from the claim). -/
def priorityParams (config : Config) : List (String × String) :=
  ("table_name", selectedTableName config) ::
    (if config.get_secrets ≠ "" then [("keys", config.get_secrets)]
     else if config.get_secret ≠ "" then [("key", config.get_secret)]
     else [])

/-! ## Properties and claim theorems -/

theorem natToBytesBE_length (k n : Nat) : (natToBytesBE k n).length = k := by
  induction k generalizing n with
  | zero => rfl
  | succ k ih => simp [natToBytesBE, ih]

theorem natToBytesBE_lt (k n : Nat) : ∀ b ∈ natToBytesBE k n, b < 256 := by
  induction k generalizing n with
  | zero => intro b hb; simp [natToBytesBE] at hb
  | succ k ih =>
    intro b hb
    simp only [natToBytesBE, List.mem_append, List.mem_singleton] at hb
    rcases hb with hb | hb
    · exact ih _ b hb
    · subst hb; exact Nat.mod_lt _ (by omega)

theorem bytesToNatBE_natToBytesBE (k n : Nat) :
    bytesToNatBE (natToBytesBE k n) = n % 256 ^ k := by
  induction k generalizing n with
  | zero => simp [natToBytesBE, bytesToNatBE, Nat.mod_one]
  | succ k ih =>
    simp only [natToBytesBE, bytesToNatBE, List.foldl_append, List.foldl_cons,
      List.foldl_nil]
    have ihn := ih (n / 256)
    simp only [bytesToNatBE] at ihn
    rw [ihn]
    have hsplit : n % 256 ^ (k + 1) = n % 256 + 256 * (n / 256 % 256 ^ k) := by
      have h256 : (256 : Nat) ^ (k + 1) = 256 * 256 ^ k := by ring
      rw [h256, Nat.mod_mul]
    omega

/-- Injectivity: `natToBytesBE k` is injective below `256 ^ k`. -/
theorem natToBytesBE_inj {k m n : Nat} (hm : m < 256 ^ k) (hn : n < 256 ^ k)
    (h : natToBytesBE k m = natToBytesBE k n) : m = n := by
  have := congrArg bytesToNatBE h
  rw [bytesToNatBE_natToBytesBE, bytesToNatBE_natToBytesBE,
    Nat.mod_eq_of_lt hm, Nat.mod_eq_of_lt hn] at this
  exact this

theorem listFlat_append (l1 l2 : List (List Nat)) :
    listFlat (l1 ++ l2) = listFlat l1 ++ listFlat l2 := by
  induction l1 with
  | nil => rfl
  | cons x xs ih => simp [listFlat, ih]

theorem strBytes_append (s t : String) :
    strBytes (s ++ t) = strBytes s ++ strBytes t := by
  show strBytes (String.mk (s.data ++ t.data)) = _
  simp [strBytes, listFlat_append]

theorem sha256_length (msg : List Nat) : (sha256 msg).length = 32 := by
  simp [sha256, natToBytesBE_length]

theorem sha256_lt (msg : List Nat) : ∀ b ∈ sha256 msg, b < 256 := by
  intro b hb
  simp only [sha256, List.mem_append] at hb
  rcases hb with ((((((hb | hb) | hb) | hb) | hb) | hb) | hb) | hb <;>
    exact natToBytesBE_lt _ _ b hb

theorem b64Index_lt {c : Char} {l : List Char} {n : Nat}
    (h : b64Index c l = some n) : n < l.length := by
  induction l generalizing n with
  | nil => simp [b64Index] at h
  | cons x xs ih =>
    simp only [b64Index] at h
    split at h
    · simp only [Option.some.injEq] at h
      subst h
      simp
    · cases hx : b64Index c xs with
      | none => rw [hx] at h; simp at h
      | some m =>
        rw [hx] at h
        simp at h
        have := ih hx
        simp only [List.length_cons]
        omega

theorem b64Val_lt {c : Char} {n : Nat} (h : b64Val c = some n) : n < 64 :=
  b64Index_lt h

theorem b64Val_encChar : ∀ n < 64, b64Val (b64EncChar n) = some n := by decide

theorem b64EncChar_ne_pad : ∀ n < 64, b64EncChar n ≠ '=' := by decide

theorem b64DecodeChars_lt :
    ∀ (cs : List Char) (l : List Nat), b64DecodeChars cs = some l →
      ∀ b ∈ l, b < 256
  | [], l, h => by
    simp only [b64DecodeChars, Option.some.injEq] at h
    subst h; intro b hb; simp at hb
  | [c1], l, h => by
    simp only [show b64DecodeChars [c1] = none from rfl] at h
    exact Option.noConfusion h
  | [c1, c2], l, h => by
    simp only [show b64DecodeChars [c1, c2] = none from rfl] at h
    exact Option.noConfusion h
  | [c1, c2, c3], l, h => by
    simp only [show b64DecodeChars [c1, c2, c3] = none from rfl] at h
    exact Option.noConfusion h
  | c1 :: c2 :: c3 :: c4 :: rest, l, h => by
    simp only [b64DecodeChars] at h
    cases hv1 : b64Val c1 with
    | none => simp only [hv1] at h; exact Option.noConfusion h
    | some v1 =>
    cases hv2 : b64Val c2 with
    | none => simp only [hv1, hv2] at h; exact Option.noConfusion h
    | some v2 =>
    simp only [hv1, hv2] at h
    have hb1 : v1 < 64 := b64Val_lt hv1
    have hb2 : v2 < 64 := b64Val_lt hv2
    split at h
    · split at h
      · simp only [Option.some.injEq] at h
        subst h
        intro b hb
        simp only [List.mem_singleton] at hb
        omega
      · exact Option.noConfusion h
    · cases hv3 : b64Val c3 with
      | none => simp only [hv3] at h; exact Option.noConfusion h
      | some v3 =>
      simp only [hv3] at h
      have hb3 : v3 < 64 := b64Val_lt hv3
      split at h
      · split at h
        · simp only [Option.some.injEq] at h
          subst h
          intro b hb
          simp only [List.mem_cons, List.not_mem_nil, or_false] at hb
          rcases hb with hb | hb <;> omega
        · exact Option.noConfusion h
      · cases hv4 : b64Val c4 with
        | none => simp only [hv4] at h; exact Option.noConfusion h
        | some v4 =>
        simp only [hv4] at h
        have hb4 : v4 < 64 := b64Val_lt hv4
        cases hr : b64DecodeChars rest with
        | none => simp only [hr] at h; exact Option.noConfusion h
        | some tl =>
        simp only [hr] at h
        simp at h
        subst h
        intro b hb
        simp only [List.mem_cons] at hb
        have ih := b64DecodeChars_lt rest tl hr
        rcases hb with hb | hb | hb | hb
        · omega
        · omega
        · omega
        · exact ih b hb

theorem b64_decode_encode :
    ∀ (l : List Nat), (∀ b ∈ l, b < 256) →
      b64DecodeChars (b64EncodeBytes l) = some l
  | [], _ => rfl
  | [b1], hl => by
    have h1 : b1 < 256 := hl b1 (by simp)
    have e1 := b64Val_encChar (b1 / 4) (by omega)
    have e2 := b64Val_encChar (b1 % 4 * 16) (by omega)
    simp only [b64EncodeBytes, b64DecodeChars, e1, e2]
    have hz : b1 % 4 * 16 % 16 = 0 := by omega
    simp [hz]
    omega
  | [b1, b2], hl => by
    have h1 : b1 < 256 := hl b1 (by simp)
    have h2 : b2 < 256 := hl b2 (by simp)
    have e1 := b64Val_encChar (b1 / 4) (by omega)
    have e2 := b64Val_encChar (b1 % 4 * 16 + b2 / 16) (by omega)
    have e3 := b64Val_encChar (b2 % 16 * 4) (by omega)
    have ne3 := b64EncChar_ne_pad (b2 % 16 * 4) (by omega)
    simp only [b64EncodeBytes, b64DecodeChars, e1, e2, e3]
    have hz : b2 % 16 * 4 % 4 = 0 := by omega
    simp [ne3, hz]
    constructor <;> omega
  | b1 :: b2 :: b3 :: rest, hl => by
    have h1 : b1 < 256 := hl b1 (by simp)
    have h2 : b2 < 256 := hl b2 (by simp)
    have h3 : b3 < 256 := hl b3 (by simp)
    have ih := b64_decode_encode rest
      (fun b hb => hl b (by simp only [List.mem_cons] at hb ⊢; tauto))
    have e1 := b64Val_encChar (b1 / 4) (by omega)
    have e2 := b64Val_encChar (b1 % 4 * 16 + b2 / 16) (by omega)
    have e3 := b64Val_encChar (b2 % 16 * 4 + b3 / 64) (by omega)
    have e4 := b64Val_encChar (b3 % 64) (by omega)
    have ne3 := b64EncChar_ne_pad (b2 % 16 * 4 + b3 / 64) (by omega)
    have ne4 := b64EncChar_ne_pad (b3 % 64) (by omega)
    simp only [b64EncodeBytes, b64DecodeChars, e1, e2, e3, e4]
    rw [ih]
    simp [ne3, ne4]
    refine ⟨by omega, by omega, by omega⟩

theorem unaryEnc_length (n : Nat) : (unaryEnc n).length = n + 1 := by
  simp [unaryEnc]

theorem parseUnary_enc (n : Nat) (rest : List Nat) :
    parseUnary (unaryEnc n ++ rest) = some (n, rest) := by
  induction n with
  | zero => rfl
  | succ n ih =>
    have he : unaryEnc (n + 1) ++ rest = 1 :: (unaryEnc n ++ rest) := by
      simp [unaryEnc, List.replicate_succ]
    rw [he]
    simp only [parseUnary, ih]

theorem parseChars_enc (cs : List Char) (rest : List Nat) :
    parseChars cs.length (charsEnc cs ++ rest) = some (cs, rest) := by
  induction cs with
  | nil => rfl
  | cons c cs ih =>
    have he : charsEnc (c :: cs) ++ rest =
        unaryEnc c.toNat ++ (charsEnc cs ++ rest) := by
      simp [charsEnc, listFlat]
    rw [List.length_cons, he]
    simp only [parseChars, parseUnary_enc, ih, Char.ofNat_toNat]

theorem parseChars_str (s : String) (rest : List Nat) :
    parseChars s.length (charsEnc s.data ++ rest) = some (s.data, rest) := by
  have h := parseChars_enc s.data rest
  rw [show s.data.length = s.length from rfl] at h
  exact h

mutual

theorem jdepth_le_serialize (v : Json) : jdepth v ≤ (jsonSerialize v).length := by
  cases v with
  | null => simp [jdepth, jsonSerialize]
  | bool b => simp [jdepth, jsonSerialize]
  | num i => simp [jdepth, jsonSerialize]
  | str s => simp [jdepth, jsonSerialize]
  | arr xs =>
    have ih := jdepthList_le_serialize xs
    simp only [jdepth, jsonSerialize, List.length_append, unaryEnc_length]
    omega
  | obj kvs =>
    have ih := jdepthKvs_le_serialize kvs
    simp only [jdepth, jsonSerialize, List.length_append, unaryEnc_length]
    omega

theorem jdepthList_le_serialize (xs : List Json) :
    jdepthList xs ≤ (serializeList xs).length := by
  cases xs with
  | nil => simp [jdepthList, serializeList]
  | cons x xs =>
    have ih1 := jdepth_le_serialize x
    have ih2 := jdepthList_le_serialize xs
    simp only [jdepthList, serializeList, List.length_append]
    exact max_le (by omega) (by omega)

theorem jdepthKvs_le_serialize (kvs : List (String × Json)) :
    jdepthKvs kvs ≤ (serializeKvs kvs).length := by
  cases kvs with
  | nil => simp [jdepthKvs, serializeKvs]
  | cons kv rest =>
    obtain ⟨k, v⟩ := kv
    have ih1 := jdepth_le_serialize v
    have ih2 := jdepthKvs_le_serialize rest
    simp only [jdepthKvs, serializeKvs, List.length_append]
    exact max_le (by omega) (by omega)

end

mutual

theorem jparse_serialize (v : Json) (fuel : Nat) (rest : List Nat)
    (h : jdepth v ≤ fuel) :
    jparse fuel (jsonSerialize v ++ rest) = some (v, rest) := by
  have h1 : 1 ≤ jdepth v := by cases v <;> simp [jdepth]
  obtain ⟨f, rfl⟩ : ∃ f, fuel = f + 1 := ⟨fuel - 1, by omega⟩
  cases v with
  | null => simp [jsonSerialize, jparse]
  | bool b => cases b <;> simp [jsonSerialize, jparse]
  | num i =>
    by_cases hi : i < 0
    · simp [jsonSerialize, jparse, parseUnary_enc, hi, List.append_assoc,
        abs_of_neg hi]
    · simp [jsonSerialize, jparse, parseUnary_enc, hi, List.append_assoc,
        abs_of_nonneg (not_lt.mp hi)]
  | str s =>
    simp [jsonSerialize, jparse, parseUnary_enc, parseChars_str,
      List.append_assoc]
  | arr xs =>
    have hd : jdepthList xs ≤ f := by
      simp only [jdepth] at h
      omega
    have ih := jparseList_serialize xs f rest hd
    simp [jsonSerialize, jparse, parseUnary_enc, ih, List.append_assoc]
  | obj kvs =>
    have hd : jdepthKvs kvs ≤ f := by
      simp only [jdepth] at h
      omega
    have ih := jparseKvs_serialize kvs f rest hd
    simp [jsonSerialize, jparse, parseUnary_enc, ih, List.append_assoc]

theorem jparseList_serialize (xs : List Json) (fuel : Nat) (rest : List Nat)
    (h : jdepthList xs ≤ fuel) :
    jparseList fuel xs.length (serializeList xs ++ rest) = some (xs, rest) := by
  cases xs with
  | nil => simp [serializeList, jparseList]
  | cons x xs =>
    have hx : jdepth x ≤ fuel :=
      le_trans (le_max_left _ _) (by simpa [jdepthList] using h)
    have hxs : jdepthList xs ≤ fuel :=
      le_trans (le_max_right _ _) (by simpa [jdepthList] using h)
    have ih1 := jparse_serialize x fuel (serializeList xs ++ rest) hx
    have ih2 := jparseList_serialize xs fuel rest hxs
    simp [serializeList, jparseList, List.append_assoc, ih1, ih2]

theorem jparseKvs_serialize (kvs : List (String × Json)) (fuel : Nat)
    (rest : List Nat) (h : jdepthKvs kvs ≤ fuel) :
    jparseKvs fuel kvs.length (serializeKvs kvs ++ rest) = some (kvs, rest) := by
  cases kvs with
  | nil => simp [serializeKvs, jparseKvs]
  | cons kv rest' =>
    obtain ⟨k, v⟩ := kv
    have hv : jdepth v ≤ fuel :=
      le_trans (le_max_left _ _) (by simpa [jdepthKvs] using h)
    have hr : jdepthKvs rest' ≤ fuel :=
      le_trans (le_max_right _ _) (by simpa [jdepthKvs] using h)
    have ih1 := jparse_serialize v fuel (serializeKvs rest' ++ rest) hv
    have ih2 := jparseKvs_serialize rest' fuel rest hr
    simp [serializeKvs, jparseKvs, parseUnary_enc, parseChars_str,
      List.append_assoc, ih1, ih2]

end

/-- The modelled codec round trip: parsing a serialized structured value
recovers it exactly. -/
theorem jsonFromSlice_serialize (v : Json) :
    jsonFromSlice (jsonSerialize v) = some v := by
  have hd : jdepth v ≤ (jsonSerialize v).length + 1 :=
    le_trans (jdepth_le_serialize v) (by omega)
  have h := jparse_serialize v ((jsonSerialize v).length + 1) [] hd
  rw [List.append_nil] at h
  simp [jsonFromSlice, h]

theorem zipXor_cons (x y : Nat) (xs ys : List Nat) :
    zipXor (x :: xs) (y :: ys) = (x ^^^ y) :: zipXor xs ys := rfl

theorem zipXor_length (a b : List Nat) :
    (zipXor a b).length = min a.length b.length := by
  simp [zipXor]

theorem zipXor_lt (a b : List Nat) (ha : ∀ x ∈ a, x < 256)
    (hb : ∀ x ∈ b, x < 256) : ∀ x ∈ zipXor a b, x < 256 := by
  induction a generalizing b with
  | nil => intro x hx; simp [zipXor] at hx
  | cons y ys ih =>
    intro x hx
    cases b with
    | nil => simp [zipXor] at hx
    | cons z zs =>
      rw [zipXor_cons] at hx
      rcases List.mem_cons.mp hx with hx | hx
      · subst hx
        exact Nat.xor_lt_two_pow (n := 8) (ha y (by simp)) (hb z (by simp))
      · exact ih zs (fun u hu => ha u (by simp [hu]))
          (fun u hu => hb u (by simp [hu])) x hx

theorem zipXor_cancel (a b : List Nat) (h : a.length ≤ b.length) :
    zipXor (zipXor a b) b = a := by
  induction a generalizing b with
  | nil => simp [zipXor]
  | cons x xs ih =>
    cases b with
    | nil => simp at h
    | cons y ys =>
      rw [zipXor_cons, zipXor_cons, Nat.xor_assoc, Nat.xor_self, Nat.xor_zero,
        ih ys (by simpa using h)]

theorem zipXor_inj (a b m : List Nat) (ha : a.length ≤ m.length)
    (hb : b.length ≤ m.length) (h : zipXor a m = zipXor b m) : a = b := by
  have := congrArg (fun l => zipXor l m) h
  simpa [zipXor_cancel a m ha, zipXor_cancel b m hb] using this

theorem listFlat_length_const (ls : List (List Nat)) (k : Nat)
    (h : ∀ l ∈ ls, l.length = k) : (listFlat ls).length = k * ls.length := by
  induction ls with
  | nil => simp [listFlat]
  | cons x xs ih =>
    simp only [listFlat, List.length_append, List.length_cons]
    rw [h x (by simp), ih (fun l hl => h l (by simp [hl]))]
    ring

theorem listFlat_mem {b : Nat} {ls : List (List Nat)} (hb : b ∈ listFlat ls) :
    ∃ l ∈ ls, b ∈ l := by
  induction ls with
  | nil => simp [listFlat] at hb
  | cons x xs ih =>
    simp only [listFlat, List.mem_append] at hb
    rcases hb with hb | hb
    · exact ⟨x, by simp, hb⟩
    · obtain ⟨l, hl, hbl⟩ := ih hb
      exact ⟨l, by simp [hl], hbl⟩

theorem keystream_length (key nonce : List Nat) (len : Nat) :
    (keystream key nonce len).length = len := by
  simp only [keystream, List.length_take]
  rw [listFlat_length_const _ 32 (by
    intro l hl
    simp only [List.mem_map] at hl
    obtain ⟨i, _, rfl⟩ := hl
    exact sha256_length _)]
  simp only [List.length_map, List.length_range]
  omega

theorem keystream_lt (key nonce : List Nat) (len : Nat) :
    ∀ b ∈ keystream key nonce len, b < 256 := by
  intro b hb
  simp only [keystream] at hb
  obtain ⟨l, hl, hbl⟩ := listFlat_mem (List.mem_of_mem_take hb)
  simp only [List.mem_map] at hl
  obtain ⟨i, _, rfl⟩ := hl
  exact sha256_lt _ b hbl

theorem tagOf_length (key nonce ct : List Nat) :
    (tagOf key nonce ct).length = 16 := by
  simp [tagOf, zipXor, natToBytesBE_length, sha256_length]

theorem tagOf_lt (key nonce ct : List Nat) : ∀ b ∈ tagOf key nonce ct, b < 256 := by
  intro b hb
  exact zipXor_lt _ _ (natToBytesBE_lt 16 ct.sum)
    (fun x hx => sha256_lt _ x (List.mem_of_mem_take hx)) b hb

/-- The modelled AEAD round trip: opening a sealed payload recovers it. -/
theorem aead_open_seal (key nonce pt : List Nat) :
    aead_open key nonce (aead_seal key nonce pt) = some pt := by
  have hks := keystream_length key nonce pt.length
  have hct : (zipXor pt (keystream key nonce pt.length)).length = pt.length := by
    simp [zipXor_length, hks]
  have htag := tagOf_length key nonce (zipXor pt (keystream key nonce pt.length))
  simp only [aead_seal, aead_open, List.length_append, hct, htag]
  rw [if_neg (by omega)]
  have hidx : pt.length + 16 - 16 =
      (zipXor pt (keystream key nonce pt.length)).length := by omega
  rw [hidx, List.take_left, List.drop_left, if_pos rfl, hct,
    zipXor_cancel pt _ (by rw [hks])]

theorem xor_ne_self (x y : Nat) (hy : y ≠ 0) : x ^^^ y ≠ x := by
  intro h
  apply hy
  calc y = 0 ^^^ y := (Nat.zero_xor y).symm
    _ = (x ^^^ x) ^^^ y := by rw [Nat.xor_self]
    _ = x ^^^ (x ^^^ y) := Nat.xor_assoc x x y
    _ = x ^^^ x := by rw [h]
    _ = 0 := Nat.xor_self x

theorem getD_set_self (l : List Nat) (i v : Nat) (h : i < l.length) :
    (l.set i v).getD i 0 = v := by
  induction l generalizing i with
  | nil => simp at h
  | cons x xs ih =>
    cases i with
    | zero => rfl
    | succ i => exact ih i (by simpa using h)

theorem getD_mem (l : List Nat) (i : Nat) (h : i < l.length) : l.getD i 0 ∈ l := by
  induction l generalizing i with
  | nil => simp at h
  | cons x xs ih =>
    cases i with
    | zero => simp [List.getD]
    | succ i => exact List.mem_cons_of_mem _ (ih i (by simpa using h))

theorem sum_set (l : List Nat) (i v : Nat) (h : i < l.length) :
    (l.set i v).sum + l.getD i 0 = l.sum + v := by
  induction l generalizing i with
  | nil => simp at h
  | cons x xs ih =>
    cases i with
    | zero => simp [List.getD]; omega
    | succ i =>
      have := ih i (by simpa using h)
      simp only [List.set, List.sum_cons] at *
      have hg : (x :: xs).getD (i + 1) 0 = xs.getD i 0 := rfl
      rw [hg]
      omega

/-- Flipping one bit of one byte changes the list. -/
theorem set_xor_ne (l : List Nat) (i j : Nat) (hi : i < l.length) :
    l.set i (l.getD i 0 ^^^ 2 ^ j) ≠ l := by
  intro he
  have h1 := getD_set_self l i (l.getD i 0 ^^^ 2 ^ j) hi
  rw [he] at h1
  exact xor_ne_self (l.getD i 0) (2 ^ j) (pow_ne_zero j (by omega)) h1.symm

theorem sum_le_255 (l : List Nat) (h : ∀ b ∈ l, b < 256) :
    l.sum ≤ 255 * l.length := by
  induction l with
  | nil => simp
  | cons x xs ih =>
    simp only [List.sum_cons, List.length_cons]
    have hx := h x (by simp)
    have := ih (fun b hb => h b (by simp [hb]))
    omega

/-- Tamper evidence of the modelled tag: flipping any bit of any ciphertext
byte changes the tag (for ciphertexts within the GCM length bound). -/
theorem tagOf_set_ne (key nonce ct : List Nat) (q j : Nat)
    (hq : q < ct.length) (hj : j < 8) (hct : ∀ b ∈ ct, b < 256)
    (hlen : ct.length ≤ 2 ^ 36) :
    tagOf key nonce (ct.set q (ct.getD q 0 ^^^ 2 ^ j)) ≠ tagOf key nonce ct := by
  intro he
  have hb : ct.getD q 0 < 256 := hct _ (getD_mem ct q hq)
  have hv : ct.getD q 0 ^^^ 2 ^ j < 256 :=
    Nat.xor_lt_two_pow (n := 8) hb (Nat.pow_lt_pow_right (by omega) hj)
  have hs := sum_set ct q (ct.getD q 0 ^^^ 2 ^ j) hq
  have hsum1 : ct.sum ≤ 255 * ct.length := sum_le_255 ct hct
  have hbig : 255 * (2 : Nat) ^ 36 + 256 < 256 ^ 16 := by norm_num
  have hmul : 255 * ct.length ≤ 255 * 2 ^ 36 := by
    exact Nat.mul_le_mul_left 255 hlen
  have hlt1 : ct.sum < 256 ^ 16 := by omega
  have hlt2 : (ct.set q (ct.getD q 0 ^^^ 2 ^ j)).sum < 256 ^ 16 := by omega
  have htag : natToBytesBE 16 (ct.set q (ct.getD q 0 ^^^ 2 ^ j)).sum =
      natToBytesBE 16 ct.sum := by
    have hmask : ((sha256 (key ++ nonce)).take 16).length = 16 := by
      simp [List.length_take, sha256_length]
    apply zipXor_inj _ _ ((sha256 (key ++ nonce)).take 16)
      (by rw [natToBytesBE_length, hmask]) (by rw [natToBytesBE_length, hmask])
    exact he
  have hsums := natToBytesBE_inj hlt2 hlt1 htag
  rw [hsums] at hs
  exact xor_ne_self (ct.getD q 0) (2 ^ j) (pow_ne_zero j (by omega)) (by omega)

/-- Any single-bit flip anywhere in `ciphertext ++ tag` makes the modelled
AEAD open fail. -/
theorem aead_open_flip (key nonce pt : List Nat) (q j : Nat)
    (hq : q < pt.length + 16) (hj : j < 8)
    (hpt : ∀ b ∈ pt, b < 256) (hlen : pt.length ≤ 2 ^ 36) :
    aead_open key nonce
      ((aead_seal key nonce pt).set q
        ((aead_seal key nonce pt).getD q 0 ^^^ 2 ^ j)) = none := by
  have hks := keystream_length key nonce pt.length
  have hct : (zipXor pt (keystream key nonce pt.length)).length = pt.length := by
    simp [zipXor_length, hks]
  have hctlt : ∀ b ∈ zipXor pt (keystream key nonce pt.length), b < 256 :=
    zipXor_lt _ _ hpt (keystream_lt key nonce pt.length)
  have htag := tagOf_length key nonce (zipXor pt (keystream key nonce pt.length))
  by_cases hcase : q < (zipXor pt (keystream key nonce pt.length)).length
  · -- flip inside the ciphertext part
    simp only [aead_seal]
    rw [List.set_append_left _ _ hcase, List.getD_append _ _ _ _ hcase]
    simp only [aead_open, List.length_append, List.length_set, hct, htag]
    rw [if_neg (by omega)]
    have hidx : pt.length + 16 - 16 =
        ((zipXor pt (keystream key nonce pt.length)).set q
          ((zipXor pt (keystream key nonce pt.length)).getD q 0 ^^^ 2 ^ j)).length := by
      rw [List.length_set, hct]
      omega
    rw [hidx, List.take_left, List.drop_left]
    rw [if_neg]
    exact tagOf_set_ne key nonce _ q j hcase hj hctlt (by omega)
  · -- flip inside the tag part
    simp only [aead_seal]
    have hge : (zipXor pt (keystream key nonce pt.length)).length ≤ q := by omega
    rw [List.set_append_right _ _ hge, List.getD_append_right _ _ _ _ hge]
    have hr : q - (zipXor pt (keystream key nonce pt.length)).length < 16 := by
      omega
    simp only [aead_open, List.length_append, List.length_set, hct, htag]
    rw [if_neg (by omega)]
    have hidx : pt.length + 16 - 16 =
        (zipXor pt (keystream key nonce pt.length)).length := by omega
    rw [hidx, List.take_left, List.drop_left]
    rw [if_neg]
    intro he
    have hrlt : q - pt.length <
        (tagOf key nonce (zipXor pt (keystream key nonce pt.length))).length := by
      rw [htag]
      omega
    have hne := set_xor_ne
      (tagOf key nonce (zipXor pt (keystream key nonce pt.length)))
      (q - pt.length) j hrlt
    exact hne he.symm

theorem unaryEnc_lt (n : Nat) : ∀ b ∈ unaryEnc n, b < 256 := by
  intro b hb
  simp only [unaryEnc, List.mem_append, List.mem_singleton,
    List.mem_replicate] at hb
  rcases hb with hb | hb
  · omega
  · omega

theorem charsEnc_lt (cs : List Char) : ∀ b ∈ charsEnc cs, b < 256 := by
  intro b hb
  obtain ⟨l, hl, hbl⟩ := listFlat_mem hb
  simp only [List.mem_map] at hl
  obtain ⟨c, _, rfl⟩ := hl
  exact unaryEnc_lt _ b hbl

mutual

theorem jsonSerialize_lt (v : Json) : ∀ b ∈ jsonSerialize v, b < 256 := by
  cases v with
  | null => intro b hb; simp [jsonSerialize] at hb; omega
  | bool bv =>
    intro b hb
    simp only [jsonSerialize, List.mem_cons, List.not_mem_nil, or_false] at hb
    rcases hb with hb | hb
    · omega
    · subst hb; split <;> omega
  | num i =>
    intro b hb
    simp only [jsonSerialize, List.mem_append, List.mem_cons,
      List.not_mem_nil, or_false] at hb
    rcases hb with (hb | hb) | hb
    · omega
    · subst hb; split <;> omega
    · exact unaryEnc_lt _ b hb
  | str s =>
    intro b hb
    simp only [jsonSerialize, List.mem_append, List.mem_singleton] at hb
    rcases hb with (hb | hb) | hb
    · omega
    · exact unaryEnc_lt _ b hb
    · exact charsEnc_lt _ b hb
  | arr xs =>
    intro b hb
    simp only [jsonSerialize, List.mem_append, List.mem_singleton] at hb
    rcases hb with (hb | hb) | hb
    · omega
    · exact unaryEnc_lt _ b hb
    · exact serializeList_lt xs b hb
  | obj kvs =>
    intro b hb
    simp only [jsonSerialize, List.mem_append, List.mem_singleton] at hb
    rcases hb with (hb | hb) | hb
    · omega
    · exact unaryEnc_lt _ b hb
    · exact serializeKvs_lt kvs b hb

theorem serializeList_lt (xs : List Json) : ∀ b ∈ serializeList xs, b < 256 := by
  cases xs with
  | nil => intro b hb; simp [serializeList] at hb
  | cons x xs =>
    intro b hb
    simp only [serializeList, List.mem_append] at hb
    rcases hb with hb | hb
    · exact jsonSerialize_lt x b hb
    · exact serializeList_lt xs b hb

theorem serializeKvs_lt (kvs : List (String × Json)) :
    ∀ b ∈ serializeKvs kvs, b < 256 := by
  cases kvs with
  | nil => intro b hb; simp [serializeKvs] at hb
  | cons kv rest =>
    obtain ⟨k, v⟩ := kv
    intro b hb
    simp only [serializeKvs, List.mem_append] at hb
    rcases hb with ((hb | hb) | hb) | hb
    · exact unaryEnc_lt _ b hb
    · exact charsEnc_lt _ b hb
    · exact jsonSerialize_lt v b hb
    · exact serializeKvs_lt rest b hb

end

theorem aead_seal_length (key nonce pt : List Nat) :
    (aead_seal key nonce pt).length = pt.length + 16 := by
  simp [aead_seal, List.length_append, zipXor_length,
    keystream_length, tagOf_length]

theorem aead_seal_lt (key nonce pt : List Nat) (hpt : ∀ b ∈ pt, b < 256) :
    ∀ b ∈ aead_seal key nonce pt, b < 256 := by
  intro b hb
  simp only [aead_seal, List.mem_append] at hb
  rcases hb with hb | hb
  · exact zipXor_lt _ _ hpt (keystream_lt key nonce pt.length) b hb
  · exact tagOf_lt key nonce _ b hb

theorem set_lt (l : List Nat) (i v : Nat) (hl : ∀ b ∈ l, b < 256)
    (hv : v < 256) : ∀ b ∈ l.set i v, b < 256 := by
  induction l generalizing i with
  | nil => intro b hb; simp at hb
  | cons x xs ih =>
    intro b hb
    cases i with
    | zero =>
      simp only [List.set, List.mem_cons] at hb
      rcases hb with hb | hb
      · omega
      · exact hl b (by simp [hb])
    | succ i =>
      simp only [List.set, List.mem_cons] at hb
      rcases hb with hb | hb
      · exact hl b (by simp [hb])
      · exact ih i (fun u hu => hl u (by simp [hu])) b hb

theorem derive_key_length (apikey : String) (epochSecs bucketWidth kl : Nat) :
    (derive_key apikey epochSecs bucketWidth kl).length = min kl 32 := by
  simp [derive_key, List.length_take, sha256_length]

/-! ## Claim theorems -/

/-- C2: for every credential and every timestamp at or after the epoch, the
symmetric key `transit_decrypt` derives (lines 64–69) equals the first
`key_length_bytes` bytes of SHA-256 over the decimal string of
`floor(now / bucket_width)`, a literal `.` (byte 46), and the raw credential
bytes, with `key_length_bytes = 32` and `bucket_width = 60` from the two
constants. -/
theorem transit_key_formula (credential : String) (now : Nat) :
    derive_key credential now TRANSIT_TIME_BUCKET TRANSIT_KEY_LENGTH =
      (sha256 (strBytes (Nat.repr (now / 60)) ++ [46] ++
        strBytes credential)).take 32
    ∧ TRANSIT_KEY_LENGTH = 32 ∧ TRANSIT_TIME_BUCKET = 60 := by
  refine ⟨?_, rfl, rfl⟩
  simp only [derive_key, TRANSIT_TIME_BUCKET, TRANSIT_KEY_LENGTH]
  congr 1
  rw [strBytes_append, strBytes_append]
  have h1 : strBytes "." = [46] := rfl
  have h2 : toString (now / 60) = Nat.repr (now / 60) := rfl
  rw [h1, h2]

/-- C9: for fixed credential, bucket width and key length, the derived key
is a pure function of the time bucket alone: two timestamps in the same
bucket yield byte-identical keys. -/
theorem derive_key_deterministic (credential : String) (w kl t1 t2 : Nat)
    (h : t1 / w = t2 / w) :
    derive_key credential t1 w kl = derive_key credential t2 w kl := by
  simp only [derive_key, h]

/-- Witness for C9 at two timestamps inside bucket 1 of the default
60-second width. -/
theorem derive_key_deterministic_witness :
    61 / 60 = 119 / 60 ∧
      derive_key "vault-key" 61 60 32 = derive_key "vault-key" 119 60 32 :=
  ⟨by decide, derive_key_deterministic "vault-key" 60 32 61 119 (by decide)⟩

/-- C8: a system clock before the UNIX epoch makes `transit_decrypt` return
the clock error immediately (lines 60–63), uniformly in the credential and
ciphertext — no fallback epoch, no key derivation, no decryption attempt. -/
theorem transit_decrypt_clock_error (apikey ciphertext : String) :
    transit_decrypt none apikey ciphertext =
      .error "System time is before the UNIX epoch" := rfl

/-- C4: an input that base64-decodes to fewer than 12 bytes always yields
the `Ciphertext is too short` error (lines 77–80), and the 12-byte split is
within bounds for any list: the nonce part never exceeds 12 bytes and the
split loses no bytes. -/
theorem transit_decrypt_truncated (now : Nat) (apikey ciphertext : String)
    (bytes : List Nat) (hdec : base64Decode ciphertext = some bytes)
    (hlen : bytes.length < 12) :
    transit_decrypt (some now) apikey ciphertext =
      .error "Ciphertext is too short"
    ∧ ∀ l : List Nat, (l.take 12).length ≤ 12 ∧ l.take 12 ++ l.drop 12 = l := by
  refine ⟨?_, fun l => ⟨?_, List.take_append_drop 12 l⟩⟩
  · simp only [transit_decrypt, hdec]
    rw [if_pos hlen]
  · rw [List.length_take]
    exact min_le_left _ _

/-- Witness for C4: `"AAAAAAA="` decodes to the five bytes `00 00 00 00 00`. -/
theorem transit_decrypt_truncated_witness :
    base64Decode "AAAAAAA=" = some [0, 0, 0, 0, 0] ∧
      ([0, 0, 0, 0, 0] : List Nat).length < 12 ∧
      transit_decrypt (some 0) "vault-key" "AAAAAAA=" =
        .error "Ciphertext is too short" :=
  ⟨by decide, by decide,
    (transit_decrypt_truncated 0 "vault-key" "AAAAAAA=" [0, 0, 0, 0, 0]
      (by decide) (by decide)).1⟩

/-- C7: with a readable clock, `transit_decrypt` is total over all
credential/ciphertext pairs — it returns `Ok` or one of the six error
conditions, each carried by its own distinct message (the list of messages
has no duplicates), never a panic (totality of the embedding) and never a
retry (it is a single function of its inputs). -/
theorem transit_decrypt_error_taxonomy (now : Nat) (apikey ciphertext : String) :
    ((∃ v, transit_decrypt (some now) apikey ciphertext = .ok v) ∨
      transit_decrypt (some now) apikey ciphertext ∈
        ([.error "Failed to decode ciphertext",
          .error "Ciphertext is too short",
          .error "Failed to create AES key",
          .error "Failed to create nonce",
          .error "Failed to decrypt data",
          .error "Failed to parse decrypted data as JSON"] :
          List (Except String Json))) ∧
    (["Failed to decode ciphertext", "Ciphertext is too short",
      "Failed to create AES key", "Failed to create nonce",
      "Failed to decrypt data",
      "Failed to parse decrypted data as JSON"] : List String).Nodup := by
  constructor
  · simp only [transit_decrypt]
    cases hdec : base64Decode ciphertext with
    | none => right; simp
    | some bs =>
      dsimp only
      by_cases hl : bs.length < 12
      · rw [if_pos hl]; right; simp
      · rw [if_neg hl]
        cases huk : unboundKeyNew
            (derive_key apikey now TRANSIT_TIME_BUCKET TRANSIT_KEY_LENGTH) with
        | none => simp only [huk]; right; simp
        | some key =>
          simp only [huk]
          cases hnn : nonceNew (List.take 12 bs) with
          | none => simp only [hnn]; right; simp
          | some nonce =>
            simp only [hnn]
            cases hop : aead_open key nonce (List.drop 12 bs) with
            | none => simp only [hop]; right; simp
            | some pt =>
              simp only [hop]
              cases hjs : jsonFromSlice pt with
              | none => simp only [hjs]; right; simp
              | some v => simp only [hjs]; left; exact ⟨v, rfl⟩
  · decide

/-- C1: encrypting a serialized structured value with the modelled
AES-256-GCM under the key derived for bucket `b`, prefixing the 12-byte
nonce and base64-encoding yields an envelope that `transit_decrypt`, called
with the same credential at any time mapping to bucket `b`, decrypts back
to the original structured value. -/
theorem transit_decrypt_roundtrip (v : Json) (credential : String)
    (secs b : Nat) (nonce : List Nat)
    (hcred : credential ≠ "") (hb : secs / TRANSIT_TIME_BUCKET = b)
    (hn : nonce.length = 12) (hnb : ∀ x ∈ nonce, x < 256) :
    transit_decrypt (some secs) credential
      (base64Encode (nonce ++
        aead_seal (keyForBucket credential b TRANSIT_KEY_LENGTH) nonce
          (jsonSerialize v))) = .ok v := by
  have hkey : derive_key credential secs TRANSIT_TIME_BUCKET TRANSIT_KEY_LENGTH
      = keyForBucket credential b TRANSIT_KEY_LENGTH := by
    simp only [derive_key, keyForBucket, hb]
  have hsealb : ∀ x ∈ aead_seal (keyForBucket credential b TRANSIT_KEY_LENGTH)
      nonce (jsonSerialize v), x < 256 :=
    aead_seal_lt _ _ _ (jsonSerialize_lt v)
  have hall : ∀ x ∈ nonce ++
      aead_seal (keyForBucket credential b TRANSIT_KEY_LENGTH) nonce
        (jsonSerialize v), x < 256 := by
    intro x hx
    rcases List.mem_append.mp hx with hx | hx
    · exact hnb x hx
    · exact hsealb x hx
  have hdec : base64Decode (base64Encode (nonce ++
      aead_seal (keyForBucket credential b TRANSIT_KEY_LENGTH) nonce
        (jsonSerialize v))) = some (nonce ++
      aead_seal (keyForBucket credential b TRANSIT_KEY_LENGTH) nonce
        (jsonSerialize v)) :=
    b64_decode_encode _ hall
  have hlen : (nonce ++
      aead_seal (keyForBucket credential b TRANSIT_KEY_LENGTH) nonce
        (jsonSerialize v)).length = (jsonSerialize v).length + 28 := by
    rw [List.length_append, hn, aead_seal_length]
    omega
  have htake : List.take 12 (nonce ++
      aead_seal (keyForBucket credential b TRANSIT_KEY_LENGTH) nonce
        (jsonSerialize v)) = nonce := by
    rw [← hn]
    exact List.take_left nonce _
  have hdrop : List.drop 12 (nonce ++
      aead_seal (keyForBucket credential b TRANSIT_KEY_LENGTH) nonce
        (jsonSerialize v)) =
      aead_seal (keyForBucket credential b TRANSIT_KEY_LENGTH) nonce
        (jsonSerialize v) := by
    rw [← hn]
    exact List.drop_left nonce _
  have hkl : (keyForBucket credential b TRANSIT_KEY_LENGTH).length = 32 := by
    simp [keyForBucket, List.length_take, sha256_length, TRANSIT_KEY_LENGTH]
  simp only [transit_decrypt, hdec]
  rw [if_neg (by rw [hlen]; omega)]
  rw [htake, hdrop, hkey]
  simp only [unboundKeyNew, hkl, if_pos, nonceNew, hn]
  simp only [aead_open_seal, jsonFromSlice_serialize]

/-- Witness for C1: the null value, a twelve-zero-byte nonce, bucket 0,
decryption time 30 seconds after the epoch. -/
theorem transit_decrypt_roundtrip_witness :
    ("vault-key" : String) ≠ "" ∧ 30 / TRANSIT_TIME_BUCKET = 0 ∧
      ([0, 0, 0, 0, 0, 0, 0, 0, 0, 0, 0, 0] : List Nat).length = 12 ∧
      transit_decrypt (some 30) "vault-key"
        (base64Encode ([0, 0, 0, 0, 0, 0, 0, 0, 0, 0, 0, 0] ++
          aead_seal (keyForBucket "vault-key" 0 TRANSIT_KEY_LENGTH)
            [0, 0, 0, 0, 0, 0, 0, 0, 0, 0, 0, 0] (jsonSerialize Json.null))) =
        .ok Json.null :=
  ⟨by decide, by decide, by decide,
    transit_decrypt_roundtrip Json.null "vault-key" 30 0
      [0, 0, 0, 0, 0, 0, 0, 0, 0, 0, 0, 0]
      (by decide) (by decide) (by decide) (by decide)⟩

/-- C3: flipping any single bit anywhere after the 12-byte nonce of a valid
(honestly sealed) envelope makes `transit_decrypt` return exactly the
`Failed to decrypt data` error — never a success with a different
plaintext — and (second conjunct) that same single error is what any AEAD
rejection produces, a wrong key included, with no further distinction.
The plaintext-length bound mirrors AES-GCM's input-size limit. -/
theorem transit_decrypt_tamper (credential : String) (secs : Nat)
    (nonce pt : List Nat) (i j : Nat)
    (hn : nonce.length = 12) (hnb : ∀ x ∈ nonce, x < 256)
    (hpb : ∀ x ∈ pt, x < 256) (hplen : pt.length ≤ 2 ^ 36)
    (hi12 : 12 ≤ i) (hilen : i < 12 + pt.length + 16) (hj : j < 8) :
    transit_decrypt (some secs) credential
      (base64Encode
        ((nonce ++ aead_seal
            (derive_key credential secs TRANSIT_TIME_BUCKET TRANSIT_KEY_LENGTH)
            nonce pt).set i
          ((nonce ++ aead_seal
              (derive_key credential secs TRANSIT_TIME_BUCKET TRANSIT_KEY_LENGTH)
              nonce pt).getD i 0 ^^^ 2 ^ j)))
      = .error "Failed to decrypt data"
    ∧ ∀ (apikey2 ct2 : String) (now2 : Nat) (bytes2 : List Nat),
        base64Decode ct2 = some bytes2 → ¬ bytes2.length < 12 →
        aead_open (derive_key apikey2 now2 TRANSIT_TIME_BUCKET TRANSIT_KEY_LENGTH)
          (List.take 12 bytes2) (List.drop 12 bytes2) = none →
        transit_decrypt (some now2) apikey2 ct2 =
          .error "Failed to decrypt data" := by
  constructor
  · set k := derive_key credential secs TRANSIT_TIME_BUCKET TRANSIT_KEY_LENGTH
      with hk
    set sealed := aead_seal k nonce pt with hsealed
    have hge : nonce.length ≤ i := by rw [hn]; omega
    have hflip : (nonce ++ sealed).set i ((nonce ++ sealed).getD i 0 ^^^ 2 ^ j)
        = nonce ++ sealed.set (i - 12)
            (sealed.getD (i - 12) 0 ^^^ 2 ^ j) := by
      rw [List.set_append_right _ _ hge, List.getD_append_right _ _ _ _ hge, hn]
    rw [hflip]
    have hsb : ∀ x ∈ sealed, x < 256 := by
      rw [hsealed]
      exact aead_seal_lt _ _ _ hpb
    have hsl : sealed.length = pt.length + 16 := by
      rw [hsealed]
      exact aead_seal_length _ _ _
    have hq : i - 12 < sealed.length := by rw [hsl]; omega
    have hv : sealed.getD (i - 12) 0 ^^^ 2 ^ j < 256 :=
      Nat.xor_lt_two_pow (n := 8) (hsb _ (getD_mem _ _ hq))
        (Nat.pow_lt_pow_right (by omega) hj)
    have hall : ∀ x ∈ nonce ++ sealed.set (i - 12)
        (sealed.getD (i - 12) 0 ^^^ 2 ^ j), x < 256 := by
      intro x hx
      rcases List.mem_append.mp hx with hx | hx
      · exact hnb x hx
      · exact set_lt sealed _ _ hsb hv x hx
    have hdec : base64Decode (base64Encode (nonce ++ sealed.set (i - 12)
        (sealed.getD (i - 12) 0 ^^^ 2 ^ j))) = some (nonce ++ sealed.set (i - 12)
        (sealed.getD (i - 12) 0 ^^^ 2 ^ j)) := b64_decode_encode _ hall
    have hlen2 : (nonce ++ sealed.set (i - 12)
        (sealed.getD (i - 12) 0 ^^^ 2 ^ j)).length = pt.length + 28 := by
      rw [List.length_append, List.length_set, hn, hsl]
      omega
    have htake : List.take 12 (nonce ++ sealed.set (i - 12)
        (sealed.getD (i - 12) 0 ^^^ 2 ^ j)) = nonce := by
      rw [← hn]
      exact List.take_left nonce _
    have hdrop : List.drop 12 (nonce ++ sealed.set (i - 12)
        (sealed.getD (i - 12) 0 ^^^ 2 ^ j)) = sealed.set (i - 12)
        (sealed.getD (i - 12) 0 ^^^ 2 ^ j) := by
      rw [← hn]
      exact List.drop_left nonce _
    have hkl : k.length = 32 := by
      rw [hk]
      simp [derive_key_length, TRANSIT_KEY_LENGTH]
    have hopen := aead_open_flip k nonce pt (i - 12) j (by omega) hj hpb hplen
    simp only [transit_decrypt, hdec]
    rw [if_neg (by rw [hlen2]; omega)]
    rw [htake, hdrop]
    simp only [unboundKeyNew, hkl, nonceNew, hn, if_pos]
    rw [hsealed]
    simp only [hopen]
  · intro apikey2 ct2 now2 bytes2 hdec2 hlen2 hopen2
    have hkl2 : (derive_key apikey2 now2 TRANSIT_TIME_BUCKET
        TRANSIT_KEY_LENGTH).length = 32 := by
      simp [derive_key_length, TRANSIT_KEY_LENGTH]
    have hn2 : (List.take 12 bytes2).length = 12 := by
      rw [List.length_take]
      omega
    simp only [transit_decrypt, hdec2]
    rw [if_neg hlen2]
    simp only [unboundKeyNew, hkl2, nonceNew, hn2, if_pos]
    simp only [hopen2]

/-- Witness for C3: empty plaintext, twelve-zero-byte nonce, flip of the
lowest bit of the first tag byte (offset 12). -/
theorem transit_decrypt_tamper_witness :
    ([0, 0, 0, 0, 0, 0, 0, 0, 0, 0, 0, 0] : List Nat).length = 12 ∧
      (12 : Nat) ≤ 12 ∧ 12 < 12 + ([] : List Nat).length + 16 ∧ (0 : Nat) < 8 ∧
      transit_decrypt (some 0) "vault-key"
        (base64Encode
          (([0, 0, 0, 0, 0, 0, 0, 0, 0, 0, 0, 0] ++ aead_seal
              (derive_key "vault-key" 0 TRANSIT_TIME_BUCKET TRANSIT_KEY_LENGTH)
              [0, 0, 0, 0, 0, 0, 0, 0, 0, 0, 0, 0] []).set 12
            (([0, 0, 0, 0, 0, 0, 0, 0, 0, 0, 0, 0] ++ aead_seal
                (derive_key "vault-key" 0 TRANSIT_TIME_BUCKET TRANSIT_KEY_LENGTH)
                [0, 0, 0, 0, 0, 0, 0, 0, 0, 0, 0, 0] []).getD 12 0 ^^^ 2 ^ 0)))
        = .error "Failed to decrypt data" :=
  ⟨by decide, by decide, by decide, by decide,
    (transit_decrypt_tamper "vault-key" 0
      [0, 0, 0, 0, 0, 0, 0, 0, 0, 0, 0, 0] [] 12 0 (by decide) (by decide)
      (by decide) (by decide) (by decide) (by decide) (by decide)).1⟩

theorem crm_mode_materials (config : Config) (params0 : List (String × String))
    (h : config.table_name ≠ "" ∨ config.get_table ≠ "") :
    ∃ m, crm_mode config params0 = CrmOutcome.materials m := by
  unfold crm_mode
  split_ifs with h1 h2 h3 h4
  · exact ⟨_, rfl⟩
  · exact ⟨_, rfl⟩
  · exact ⟨_, rfl⟩
  · exfalso
    rcases h with h | h
    · exact h h4
    · exact h3 h
  · exact ⟨_, rfl⟩

/-- C6 counterexample: a configuration with a table selector and no
retrieval mode is not rejected — `create_request_materials` returns
materials with an empty URL — and a configuration with two retrieval modes
is not rejected either. -/
theorem create_request_materials_no_reject_counterexample :
    create_request_materials
        (Config.mk "api-key" "http://sv/" "tbl" "" "" "" 32 60)
      = CrmOutcome.materials
          ⟨"", [("table_name", "tbl")], auth_headers "api-key"⟩
    ∧ create_request_materials
        (Config.mk "api-key" "http://sv/" "tbl" "" "sec" "s1,s2" 32 60)
      = CrmOutcome.materials
          ⟨"http://sv/" ++ "get-secrets",
           [("table_name", "tbl"), ("keys", "s1,s2")],
           auth_headers "api-key"⟩ := by
  constructor <;> rfl

/-- C6 (amended): `create_request_materials` rejects — by terminating the
process with exit code 1, not with a typed error — exactly the
configurations whose two table selectors are both empty.  With a table
selector present it never rejects: any mode combination, including zero
modes and several modes, produces request materials. -/
theorem create_request_materials_reject (config : Config) :
    (create_request_materials config = CrmOutcome.exits 1 ↔
      config.table_name = "" ∧ config.get_table = "") ∧
    ((config.table_name ≠ "" ∨ config.get_table ≠ "") →
      ∃ m, create_request_materials config = CrmOutcome.materials m) := by
  unfold create_request_materials
  split_ifs with h1 h2
  · obtain ⟨m, hm⟩ := crm_mode_materials config
      [("table_name", config.table_name)] (Or.inl h1)
    rw [hm]
    constructor
    · constructor
      · intro he
        exact absurd he (by simp)
      · intro hc
        exact absurd hc.1 h1
    · intro _
      exact ⟨m, rfl⟩
  · obtain ⟨m, hm⟩ := crm_mode_materials config
      [("table_name", config.get_table)] (Or.inr h2)
    rw [hm]
    constructor
    · constructor
      · intro he
        exact absurd he (by simp)
      · intro hc
        exact absurd hc.2 h2
    · intro _
      exact ⟨m, rfl⟩
  · constructor
    · constructor
      · intro _
        exact ⟨not_not.mp h1, not_not.mp h2⟩
      · intro _
        rfl
    · intro hc
      rcases hc with hc | hc
      · exact absurd hc h1
      · exact absurd hc h2

/-- Witness for the amended C6 at a zero-mode configuration with a table
selector: materials are produced, no rejection occurs. -/
theorem create_request_materials_reject_witness :
    (("tbl" : String) ≠ "" ∨ ("" : String) ≠ "") ∧
      ∃ m, create_request_materials
          (Config.mk "api-key" "http://sv/" "tbl" "" "" "" 32 60)
        = CrmOutcome.materials m :=
  ⟨Or.inl (by decide),
    (create_request_materials_reject
      (Config.mk "api-key" "http://sv/" "tbl" "" "" "" 32 60)).2
      (Or.inl (by decide))⟩

/-- C10: with a table selector and at least one retrieval mode set,
`create_request_materials` does not reject but picks exactly one endpoint
and one parameter set by fixed priority — `get_secrets` over `get_secret`
over `get_table` — and sends `table_name` (over `get_table`) as the
`table_name` parameter. -/
theorem create_request_materials_priority (config : Config)
    (htable : config.table_name ≠ "" ∨ config.get_table ≠ "")
    (hmode : config.get_secrets ≠ "" ∨ config.get_secret ≠ "" ∨
      config.get_table ≠ "") :
    create_request_materials config =
      CrmOutcome.materials
        ⟨priorityUrl config, priorityParams config,
         auth_headers config.apikey⟩ := by
  unfold create_request_materials crm_mode priorityUrl priorityParams
    selectedTableName
  split_ifs <;> first | rfl | tauto

/-- Witness for C10 at a configuration with all modes and both table
selectors set: the priority picks `get-secrets` and `table_name`. -/
theorem create_request_materials_priority_witness :
    (("t" : String) ≠ "" ∨ ("gt" : String) ≠ "") ∧
      (("s1,s2" : String) ≠ "" ∨ ("sec" : String) ≠ "" ∨
        ("gt" : String) ≠ "") ∧
      create_request_materials
          (Config.mk "a" "http://sv/" "t" "gt" "sec" "s1,s2" 32 60)
        = CrmOutcome.materials
            ⟨priorityUrl (Config.mk "a" "http://sv/" "t" "gt" "sec" "s1,s2" 32 60),
             priorityParams (Config.mk "a" "http://sv/" "t" "gt" "sec" "s1,s2" 32 60),
             auth_headers "a"⟩ :=
  ⟨Or.inl (by decide), Or.inl (by decide),
    create_request_materials_priority _ (Or.inl (by decide))
      (Or.inl (by decide))⟩

/-- C5 counterexample: on a response body with no `detail` field — and
likewise for an object-valued `detail` — `server_connection` terminates
the process with exit status 1; it does not return a typed retrieval
failure. -/
theorem server_connection_exit_counterexample :
    server_connection (some 0) (Config.mk "a" "http://sv/" "t" "" "s" "" 32 60)
        (some (some (Json.obj []))) = ServerOutcome.exits 1
    ∧ server_connection (some 0) (Config.mk "a" "http://sv/" "t" "" "s" "" 32 60)
        (some (some (Json.obj
          [("detail", Json.obj [("error", Json.str "x")])])))
      = ServerOutcome.exits 1 := by
  constructor <;> rfl

/-- C5 (amended): when the configuration yields request materials, the
component dispatches on the extracted `detail` value: a string is handed to
the configuration-parameterized transit decryptor and its result is
returned; an absent, null, object or other non-string `detail` — and a
transport or body-parse failure — terminates the process with exit status
1, never invoking decryption. -/
theorem server_connection_dispatch (now : Option Nat) (config : Config)
    (body : Json) (m : RequestMaterials)
    (hm : create_request_materials config = CrmOutcome.materials m) :
    (∀ s, jget body "detail" = some (Json.str s) →
      server_connection now config (some (some body)) =
        ServerOutcome.returns (decipher_transit_decrypt now config.apikey s
          config.transit_key_length config.transit_time_bucket)) ∧
    ((∀ s, jget body "detail" ≠ some (Json.str s)) →
      server_connection now config (some (some body)) =
        ServerOutcome.exits 1) ∧
    server_connection now config none = ServerOutcome.exits 1 ∧
    server_connection now config (some none) = ServerOutcome.exits 1 := by
  refine ⟨?_, ?_, ?_, ?_⟩
  · intro s hs
    simp only [server_connection, hm, make_request, hs, Option.getD]
  · intro hne
    simp only [server_connection, hm, make_request]
    cases hd : jget body "detail" with
    | none => simp [hd]
    | some dv =>
      cases dv with
      | str s => exact absurd hd (hne s)
      | null => simp [hd]
      | bool bv => simp [hd]
      | num n => simp [hd]
      | arr xs => simp [hd]
      | obj kvs => simp [hd]
  · simp [server_connection, hm, make_request]
  · simp [server_connection, hm, make_request]

/-- Witness for the amended C5: a body whose `detail` is a string reaches
the decryptor; the configuration's materials exist. -/
theorem server_connection_dispatch_witness :
    create_request_materials (Config.mk "a" "http://sv/" "t" "" "s" "" 32 60)
      = CrmOutcome.materials
          ⟨"http://sv/" ++ "get-secret",
           [("table_name", "t"), ("key", "s")], auth_headers "a"⟩ ∧
    jget (Json.obj [("detail", Json.str "cipher")]) "detail"
      = some (Json.str "cipher") ∧
    server_connection (some 0) (Config.mk "a" "http://sv/" "t" "" "s" "" 32 60)
        (some (some (Json.obj [("detail", Json.str "cipher")])))
      = ServerOutcome.returns
          (decipher_transit_decrypt (some 0) "a" "cipher" 32 60) :=
  ⟨rfl, rfl,
    (server_connection_dispatch (some 0)
        (Config.mk "a" "http://sv/" "t" "" "s" "" 32 60)
        (Json.obj [("detail", Json.str "cipher")]) _ rfl).1 "cipher" rfl⟩
